import Mathlib

/-!
Verification of the TVK6 console core: a shallow embedding of
`screen_emulator.py` (VT100 screen reconstruction), `state_manager.py`
(screen-driven state machine) and `sequence_manager.py` (command sequencer),
together with proofs and refutations of the specified properties.

Conventions of the embedding:
* Python `str` data fed to the emulator is modelled as `List Char`.
* Python statements that can raise (`int(...)` on a non-numeric string,
  list indexing out of range) are modelled with `Option`: `none` means the
  Python code raises an exception at that point.
* Mutation is modelled by explicit state passing.
-/

namespace TVK6

/-! ## ScreenEmulator (`screen_emulator.py`) -/

/-- State of the VT100 screen emulator: `rows × cols` character grid,
cursor position `(row, col)`, and the carry-over buffer
(`incomplete_data_buffer`) holding an unfinished escape sequence. -/
structure ScreenEmulator where
  rows : Nat
  cols : Nat
  screen : List (List Char)
  cursor_pos : Nat × Nat
  incomplete_data_buffer : List Char
deriving DecidableEq, Repr

/-- Fresh emulator as built by `ScreenEmulator.__init__`: a `rows × cols`
grid of spaces, cursor at `(0,0)`, empty carry-over buffer. -/
def freshScreenEmulator (rows cols : Nat) : ScreenEmulator :=
  { rows := rows
    cols := cols
    screen := List.replicate rows (List.replicate cols ' ')
    cursor_pos := (0, 0)
    incomplete_data_buffer := [] }

/-- `ScreenEmulator.reset`: clear the grid to spaces, home the cursor and
empty the carry-over buffer. -/
def ScreenEmulator.reset (em : ScreenEmulator) : ScreenEmulator :=
  { em with
    screen := List.replicate em.rows (List.replicate em.cols ' ')
    cursor_pos := (0, 0)
    incomplete_data_buffer := [] }

/-- Characters accepted inside a CSI parameter run: the Python membership
test `data[i] in '0123456789;?'`. -/
def isParamChar (c : Char) : Bool :=
  c.isDigit || c = ';' || c = '?'

/-- Python `s.split(';')` on the parameter run (always returns at least one
piece; an empty string yields `[[]]`). -/
def splitOnChar (sep : Char) : List Char → List (List Char)
  | [] => [[]]
  | c :: t =>
    if c = sep then [] :: splitOnChar sep t
    else
      match splitOnChar sep t with
      | [] => [[c]]
      | h :: r => (c :: h) :: r

/-- Python `int(s)` applied to a CSI parameter token (a string over
`0123456789?`): succeeds with the decimal value when the token is a
non-empty digit string, otherwise (`'?'` present) raises, i.e. `none`. -/
def pyInt (s : List Char) : Option Nat :=
  if s ≠ [] ∧ s.all Char.isDigit then
    some (s.foldl (fun n c => n * 10 + (c.toNat - 48)) 0)
  else none

/-- `max(0, min(v, hi))` over Python ints, landing back in `Nat`. -/
def clamp01 (v hi : Int) : Nat :=
  (max 0 (min v hi)).toNat

/-- The `K` (erase-in-line) write loop `for c in range(col, cols):
line[c] = ' '` on a row of length `cols`. -/
def eraseFrom (line : List Char) (col cols : Nat) : List Char :=
  line.take col ++ List.replicate (cols - col) ' '

/-- A parsed escape sequence: either a complete CSI sequence
(`ESC [ params cmd`) or a sequence that is consumed with no grid effect
(charset designations `ESC #/(/)  x` and bare `ESC x`). -/
inductive EscAct where
  | csi (paramsStr : List Char) (cmd : Char)
  | skip
deriving DecidableEq, Repr

/-- Parse the characters following a consumed `ESC`.  `none` means the
input ends before the sequence is complete (the Python code then stashes
`ESC` plus everything after it in the carry-over buffer and stops). -/
def parseEsc : List Char → Option (EscAct × List Char)
  | [] => none
  | c :: t =>
    if c = '[' then
      let ps := t.takeWhile isParamChar
      match t.dropWhile isParamChar with
      | [] => none
      | cmd :: t' => some (.csi ps cmd, t')
    else if c = '#' ∨ c = '(' ∨ c = ')' then
      match t with
      | [] => none
      | _ :: t' => some (.skip, t')
    else
      some (.skip, t)

/-- `int(params[k]) - 1 if <params[k] present and non-empty> else 0`: the
0-based coordinate for the `H` command (`none` = `ValueError`). -/
def param0Based (params : List (List Char)) (k : Nat) : Option Int :=
  match params.get? k with
  | some p => if p ≠ [] then (pyInt p).map (fun n => (n : Int) - 1) else some 0
  | none => some 0

/-- `int(params[0]) if params and params[0] else 1`: the count for the
`C` / `D` commands (`none` = `ValueError`). -/
def paramCount (params : List (List Char)) : Option Nat :=
  match params.head? with
  | some p => if p ≠ [] then pyInt p else some 1
  | none => some 1

/-- Dispatch of a complete CSI sequence (`H`, `C`, `D`, `K`, other letters
ignored), acting on the screen and cursor.  `none` models the Python
exceptions: `int()` raising `ValueError` on a parameter containing `'?'`,
and the `IndexError` of `self.screen[row]` in the `K` handler when the
cursor row is outside the grid and the erase range is non-empty. -/
def csiCore (rows cols : Nat) (paramsStr : List Char) (cmd : Char)
    (screen : List (List Char)) (cursor : Nat × Nat) :
    Option (List (List Char) × (Nat × Nat)) :=
  let params := splitOnChar ';' paramsStr
  if cmd = 'H' then
    (param0Based params 0).bind fun ri =>
      (param0Based params 1).bind fun ci =>
        some (screen, (clamp01 ri ((rows : Int) - 1), clamp01 ci ((cols : Int) - 1)))
  else if cmd = 'C' then
    (paramCount params).map fun n =>
      (screen, (cursor.1, min (cols - 1) (cursor.2 + n)))
  else if cmd = 'D' then
    (paramCount params).map fun n =>
      (screen, (cursor.1, cursor.2 - n))
  else if cmd = 'K' then
    if paramsStr = [] ∨ paramsStr = ['0'] then
      if cursor.2 < cols then
        if cursor.1 < rows then
          some (screen.set cursor.1 (eraseFrom (screen.getD cursor.1 []) cursor.2 cols), cursor)
        else none
      else some (screen, cursor)
    else some (screen, cursor)
  else some (screen, cursor)

/-- Apply a parsed escape action to the emulator. -/
def applyEsc (act : EscAct) (em : ScreenEmulator) : Option ScreenEmulator :=
  match act with
  | .csi paramsStr cmd =>
    (csiCore em.rows em.cols paramsStr cmd em.screen em.cursor_pos).map
      fun sc => { em with screen := sc.1, cursor_pos := sc.2 }
  | .skip => some em

/-- Handling of an ordinary (non-escape) character: `'\n'` advances the
cursor row without clamping and without resetting the column; `'\r'`,
`'\x0e'`, `'\x0f'` are ignored; any other character is written at the
cursor and the column advances, both only when the cursor is inside the
grid. -/
def stepChar (c : Char) (em : ScreenEmulator) : ScreenEmulator :=
  if c = '\n' then
    { em with cursor_pos := (em.cursor_pos.1 + 1, em.cursor_pos.2) }
  else if c = '\x0e' ∨ c = '\x0f' ∨ c = '\r' then em
  else
    if em.cursor_pos.1 < em.rows ∧ em.cursor_pos.2 < em.cols then
      { em with
        screen := em.screen.set em.cursor_pos.1
          ((em.screen.getD em.cursor_pos.1 []).set em.cursor_pos.2 c)
        cursor_pos := (em.cursor_pos.1, em.cursor_pos.2 + 1) }
    else em

theorem parseEsc_length {t : List Char} {act : EscAct} {r : List Char}
    (h : parseEsc t = some (act, r)) : r.length < t.length := by
  match t with
  | [] => simp [parseEsc] at h
  | c :: t2 =>
    simp only [parseEsc] at h
    split at h
    · have hsub : (t2.dropWhile isParamChar).length ≤ t2.length :=
        (List.dropWhile_sublist (p := isParamChar) (l := t2)).length_le
      cases hdw : t2.dropWhile isParamChar with
      | nil => rw [hdw] at h; exact absurd h (by simp)
      | cons cmd t' =>
        rw [hdw] at h
        simp only [Option.some.injEq, Prod.mk.injEq] at h
        rw [hdw] at hsub
        simp only [List.length_cons] at hsub
        simp only [List.length_cons, ← h.2]
        omega
    · split at h
      · cases t2 with
        | nil => exact absurd h (by simp)
        | cons x t' =>
          simp only [Option.some.injEq, Prod.mk.injEq] at h
          simp only [List.length_cons, ← h.2]
          omega
      · simp only [Option.some.injEq, Prod.mk.injEq] at h
        simp only [List.length_cons, ← h.2]
        omega

/-- The main `while` loop of `ScreenEmulator.process_data`, entered with
the carry-over buffer already cleared and prepended to the data. -/
def processLoop (em : ScreenEmulator) (data : List Char) : Option ScreenEmulator :=
  match data with
  | [] => some em
  | c :: rest =>
    if c = '\x1b' then
      match h : parseEsc rest with
      | none => some { em with incomplete_data_buffer := c :: rest }
      | some (act, r) =>
        match applyEsc act em with
        | none => none
        | some em' =>
          have : r.length < rest.length := parseEsc_length h
          processLoop em' r
    else processLoop (stepChar c em) rest
termination_by data.length
decreasing_by
  · simp only [List.length_cons]; omega
  · simp only [List.length_cons]; omega

/-- Structurally recursive twin of `processLoop` (fuel-indexed, so that
concrete runs reduce inside the kernel); `processLoopFuel_eq` below shows
it agrees with `processLoop` whenever the fuel covers the data length. -/
def processLoopFuel : Nat → ScreenEmulator → List Char → Option ScreenEmulator
  | _, em, [] => some em
  | 0, _, _ :: _ => none
  | fuel + 1, em, c :: rest =>
    if c = '\x1b' then
      match parseEsc rest with
      | none => some { em with incomplete_data_buffer := c :: rest }
      | some (act, r) =>
        match applyEsc act em with
        | none => none
        | some em' => processLoopFuel fuel em' r
    else processLoopFuel fuel (stepChar c em) rest

/-- `ScreenEmulator.process_data`: prepend the carry-over buffer, clear it,
and run the interpretation loop.  `none` models a raised exception. -/
def ScreenEmulator.process_data (em : ScreenEmulator) (data : List Char) :
    Option ScreenEmulator :=
  processLoopFuel (em.incomplete_data_buffer ++ data).length
    { em with incomplete_data_buffer := [] }
    (em.incomplete_data_buffer ++ data)

/-- The rows of the screen as strings (`"".join(row)` for each row). -/
def ScreenEmulator.screen_lines (em : ScreenEmulator) : List String :=
  em.screen.map (fun row => String.mk row)

/-- `ScreenEmulator.get_screen_text`: the rows joined with `'\n'`. -/
def ScreenEmulator.get_screen_text (em : ScreenEmulator) : String :=
  String.intercalate "\n" em.screen_lines

/-! ### Split-sequence equivalence (claim C1) -/

theorem stepChar_fields (c : Char) (em : ScreenEmulator) :
    (stepChar c em).incomplete_data_buffer = em.incomplete_data_buffer ∧
      (stepChar c em).rows = em.rows ∧ (stepChar c em).cols = em.cols := by
  unfold stepChar
  split
  · exact ⟨rfl, rfl, rfl⟩
  · split
    · exact ⟨rfl, rfl, rfl⟩
    · split
      · exact ⟨rfl, rfl, rfl⟩
      · exact ⟨rfl, rfl, rfl⟩

theorem applyEsc_fields {act : EscAct} {em em' : ScreenEmulator}
    (h : applyEsc act em = some em') :
    em'.incomplete_data_buffer = em.incomplete_data_buffer ∧
      em'.rows = em.rows ∧ em'.cols = em.cols := by
  cases act with
  | skip =>
    simp only [applyEsc, Option.some.injEq] at h
    subst h; exact ⟨rfl, rfl, rfl⟩
  | csi ps cmd =>
    simp only [applyEsc, Option.map_eq_some'] at h
    obtain ⟨sc, -, rfl⟩ := h
    exact ⟨rfl, rfl, rfl⟩

/-- A complete escape sequence parses identically when more data is
appended; the leftover input just grows by the appended part. -/
theorem parseEsc_append {t : List Char} {act : EscAct} {r : List Char}
    (h : parseEsc t = some (act, r)) (b : List Char) :
    parseEsc (t ++ b) = some (act, r ++ b) := by
  match t with
  | [] => simp [parseEsc] at h
  | c :: t2 =>
    rw [List.cons_append]
    simp only [parseEsc] at h ⊢
    by_cases hc : c = '['
    · rw [if_pos hc] at h ⊢
      cases hdw : t2.dropWhile isParamChar with
      | nil => rw [hdw] at h; exact Option.noConfusion h
      | cons cmd t' =>
        rw [hdw] at h
        have h' := Option.some.inj h
        injection h' with ha hr
        have hdwa : (t2 ++ b).dropWhile isParamChar = cmd :: (t' ++ b) := by
          rw [List.dropWhile_append, hdw]; rfl
        have htwa : (t2 ++ b).takeWhile isParamChar = t2.takeWhile isParamChar := by
          rw [List.takeWhile_append]
          split
          · rename_i hlen
            have h3 := congrArg List.length
              (List.takeWhile_append_dropWhile (p := isParamChar) (l := t2))
            rw [List.length_append] at h3
            have h4 : (t2.dropWhile isParamChar).length = 0 := by omega
            rw [List.length_eq_zero.mp h4] at hdw
            exact absurd hdw (by simp)
          · rfl
        rw [hdwa]
        show some (EscAct.csi ((t2 ++ b).takeWhile isParamChar) cmd, t' ++ b) =
          some (act, r ++ b)
        rw [htwa, ← ha, ← hr]
    · rw [if_neg hc] at h ⊢
      by_cases hs : c = '#' ∨ c = '(' ∨ c = ')'
      · rw [if_pos hs] at h ⊢
        cases t2 with
        | nil => exact Option.noConfusion h
        | cons x t' =>
          have h' := Option.some.inj h
          injection h' with ha hr
          show some (EscAct.skip, t' ++ b) = some (act, r ++ b)
          rw [← ha, ← hr]
      · rw [if_neg hs] at h ⊢
        have h' := Option.some.inj h
        injection h' with ha hr
        show some (EscAct.skip, t2 ++ b) = some (act, r ++ b)
        rw [← ha, ← hr]

theorem processLoop_nil (em : ScreenEmulator) : processLoop em [] = some em := by
  rw [processLoop]

theorem processLoop_esc_incomplete (em : ScreenEmulator) (t : List Char)
    (hpe : parseEsc t = none) :
    processLoop em ('\x1b' :: t) =
      some { em with incomplete_data_buffer := '\x1b' :: t } := by
  rw [processLoop, if_pos rfl]
  split
  · rfl
  · rename_i act r heq
    rw [hpe] at heq
    exact Option.noConfusion heq

theorem processLoop_esc_complete (em : ScreenEmulator) (t : List Char)
    (act : EscAct) (r : List Char) (hpe : parseEsc t = some (act, r)) :
    processLoop em ('\x1b' :: t) =
      (applyEsc act em).bind fun em' => processLoop em' r := by
  rw [processLoop, if_pos rfl]
  split
  · rename_i heq
    rw [hpe] at heq
    exact Option.noConfusion heq
  · rename_i act' r' heq
    rw [hpe] at heq
    injection heq with heq'
    injection heq' with h1 h2
    subst h1; subst h2
    cases applyEsc act em <;> rfl

theorem processLoop_char (em : ScreenEmulator) (c : Char) (t : List Char)
    (hc : ¬c = '\x1b') :
    processLoop em (c :: t) = processLoop (stepChar c em) t := by
  rw [processLoop, if_neg hc]

/-- The fuel-indexed loop computes the well-founded loop whenever the fuel
covers the input length. -/
theorem processLoopFuel_eq (em : ScreenEmulator) (data : List Char) :
    ∀ f, data.length ≤ f → processLoopFuel f em data = processLoop em data := by
  induction em, data using processLoop.induct with
  | case1 em =>
    intro f hf
    rw [processLoop_nil]
    cases f <;> rfl
  | case2 em t hpe =>
    intro f hf
    obtain ⟨g, rfl⟩ : ∃ g, f = g + 1 :=
      ⟨f - 1, by simp only [List.length_cons] at hf; omega⟩
    rw [processLoop_esc_incomplete em t hpe, processLoopFuel, if_pos rfl, hpe]
  | case3 em t act r hpe happ =>
    intro f hf
    obtain ⟨g, rfl⟩ : ∃ g, f = g + 1 :=
      ⟨f - 1, by simp only [List.length_cons] at hf; omega⟩
    rw [processLoop_esc_complete em t act r hpe, processLoopFuel, if_pos rfl, hpe]
    show (match applyEsc act em with
        | none => none
        | some em2 => processLoopFuel g em2 r) =
      (applyEsc act em).bind fun em2 => processLoop em2 r
    rw [happ]
    rfl
  | case4 em t act r hpe em' happ hlen ih =>
    intro f hf
    obtain ⟨g, rfl⟩ : ∃ g, f = g + 1 :=
      ⟨f - 1, by simp only [List.length_cons] at hf; omega⟩
    rw [processLoop_esc_complete em t act r hpe, processLoopFuel, if_pos rfl, hpe]
    show (match applyEsc act em with
        | none => none
        | some em2 => processLoopFuel g em2 r) =
      (applyEsc act em).bind fun em2 => processLoop em2 r
    rw [happ, Option.some_bind]
    show processLoopFuel g em' r = processLoop em' r
    refine ih g ?_
    simp only [List.length_cons] at hf
    omega
  | case5 em c t hc ih =>
    intro f hf
    obtain ⟨g, rfl⟩ : ∃ g, f = g + 1 :=
      ⟨f - 1, by simp only [List.length_cons] at hf; omega⟩
    rw [processLoop_char em c t hc, processLoopFuel, if_neg hc]
    refine ih g ?_
    simp only [List.length_cons] at hf
    omega

/-- Core compositionality of the interpretation loop: running on `a ++ b`
equals running on `a`, then re-feeding the carry-over buffer followed
by `b`. -/
theorem processLoop_append (em : ScreenEmulator) (a : List Char) :
    em.incomplete_data_buffer = [] → ∀ b,
      processLoop em (a ++ b) =
        (processLoop em a).bind fun em1 =>
          processLoop { em1 with incomplete_data_buffer := [] }
            (em1.incomplete_data_buffer ++ b) := by
  induction em, a using processLoop.induct with
  | case1 em =>
    intro hbuf b
    have he : ({ em with incomplete_data_buffer := [] } : ScreenEmulator) = em := by
      cases em; simp_all
    rw [List.nil_append, processLoop_nil, Option.some_bind, hbuf, List.nil_append, he]
  | case2 em t hpe =>
    intro hbuf b
    have he : ({ em with incomplete_data_buffer := [] } : ScreenEmulator) = em := by
      cases em; simp_all
    rw [List.cons_append, processLoop_esc_incomplete em t hpe, Option.some_bind]
    show processLoop em ('\x1b' :: (t ++ b)) =
      processLoop { em with incomplete_data_buffer := [] } ('\x1b' :: t ++ b)
    rw [he, List.cons_append]
  | case3 em t act r hpe happ =>
    intro hbuf b
    rw [List.cons_append,
      processLoop_esc_complete em (t ++ b) act (r ++ b) (parseEsc_append hpe b),
      processLoop_esc_complete em t act r hpe, happ]
    rfl
  | case4 em t act r hpe em' happ hlen ih =>
    intro hbuf b
    have hbuf' : em'.incomplete_data_buffer = [] := by
      rw [(applyEsc_fields happ).1, hbuf]
    rw [List.cons_append,
      processLoop_esc_complete em (t ++ b) act (r ++ b) (parseEsc_append hpe b),
      processLoop_esc_complete em t act r hpe, happ]
    rw [Option.some_bind, Option.some_bind]
    exact ih hbuf' b
  | case5 em c t hc ih =>
    intro hbuf b
    have hbuf' : (stepChar c em).incomplete_data_buffer = [] := by
      rw [(stepChar_fields c em).1, hbuf]
    rw [List.cons_append, processLoop_char em c (t ++ b) hc, processLoop_char em c t hc]
    exact ih hbuf' b


/-- Two successive `process_data` calls starting from an emulator with an
empty carry-over buffer are equivalent to one call on the concatenation:
the second call re-feeds the buffered incomplete tail of the first. -/
theorem process_data_append (em : ScreenEmulator)
    (hbuf : em.incomplete_data_buffer = []) (a b : List Char) :
    (em.process_data a).bind (fun em1 => em1.process_data b) =
      em.process_data (a ++ b) := by
  simp only [ScreenEmulator.process_data, processLoopFuel_eq _ _ _ (le_refl _)]
  have he : ({ em with incomplete_data_buffer := [] } : ScreenEmulator) = em := by
    cases em; simp_all
  rw [hbuf, List.nil_append, List.nil_append, he]
  exact (processLoop_append em a hbuf b).symm

/-- C1 (confirmed).  Split-sequence equivalence: for every character
stream `S` and every split point `k`, processing `S[:k]` and then `S[k:]`
on a fresh 24×80 emulator produces exactly the same emulator (grid,
cursor position and carry-over buffer) as processing `S` in one call —
including when `k` falls inside an ANSI escape sequence, and with the
exceptional outcomes (`none`) also agreeing. -/
theorem c1_split_sequence_equivalence (S : List Char) (k : Nat) :
    ((freshScreenEmulator 24 80).process_data (S.take k)).bind
        (fun em => em.process_data (S.drop k)) =
      (freshScreenEmulator 24 80).process_data S := by
  rw [process_data_append _ rfl, List.take_append_drop]

/-! ### Invariant preservation machinery -/

/-- Any predicate preserved by single-character steps, escape dispatch and
buffer overwrites is preserved by the whole interpretation loop. -/
theorem processLoop_preserve (P : ScreenEmulator → Prop)
    (hstep : ∀ c em, P em → P (stepChar c em))
    (hesc : ∀ act em em2, P em → applyEsc act em = some em2 → P em2)
    (hbufset : ∀ em b, P em → P { em with incomplete_data_buffer := b }) :
    ∀ (em : ScreenEmulator) (data : List Char), ∀ em2, P em →
      processLoop em data = some em2 → P em2 := by
  intro em data
  induction em, data using processLoop.induct with
  | case1 em =>
    intro em2 hP h
    rw [processLoop_nil] at h
    rw [← Option.some.inj h]
    exact hP
  | case2 em t hpe =>
    intro em2 hP h
    rw [processLoop_esc_incomplete em t hpe] at h
    rw [← Option.some.inj h]
    exact hbufset em _ hP
  | case3 em t act r hpe happ =>
    intro em2 hP h
    rw [processLoop_esc_complete em t act r hpe, happ] at h
    exact Option.noConfusion h
  | case4 em t act r hpe em1 happ hlen ih =>
    intro em2 hP h
    rw [processLoop_esc_complete em t act r hpe, happ, Option.some_bind] at h
    exact ih em2 (hesc act em em1 hP happ) h
  | case5 em c t hc ih =>
    intro em2 hP h
    rw [processLoop_char em c t hc] at h
    exact ih em2 (hstep c em hP) h

/-- An abstract session step: either `reset()` or a `process_data` call. -/
inductive EmulatorOp where
  | reset
  | data (s : List Char)

/-- Run one session step. -/
def applyEmulatorOp (em : ScreenEmulator) : EmulatorOp → Option ScreenEmulator
  | .reset => some em.reset
  | .data s => em.process_data s

/-- Run a whole session: a sequence of `reset` / `process_data` calls,
propagating a raised exception (`none`). -/
def applyEmulatorOps (em : ScreenEmulator) : List EmulatorOp → Option ScreenEmulator
  | [] => some em
  | op :: rest => (applyEmulatorOp em op).bind fun em2 => applyEmulatorOps em2 rest

/-- Lift loop preservation to `process_data` and whole sessions, provided
the predicate also survives `reset`. -/
theorem applyEmulatorOps_preserve (P : ScreenEmulator → Prop)
    (hstep : ∀ c em, P em → P (stepChar c em))
    (hesc : ∀ act em em2, P em → applyEsc act em = some em2 → P em2)
    (hbufset : ∀ em b, P em → P { em with incomplete_data_buffer := b })
    (hreset : ∀ em, P em → P em.reset) :
    ∀ (ops : List EmulatorOp) (em em2 : ScreenEmulator), P em →
      applyEmulatorOps em ops = some em2 → P em2 := by
  intro ops
  induction ops with
  | nil =>
    intro em em2 hP h
    rw [applyEmulatorOps] at h
    rw [← Option.some.inj h]
    exact hP
  | cons op rest ih =>
    intro em em2 hP h
    rw [applyEmulatorOps] at h
    cases hop : applyEmulatorOp em op with
    | none => rw [hop] at h; exact Option.noConfusion h
    | some em1 =>
      rw [hop, Option.some_bind] at h
      refine ih em1 em2 ?_ h
      cases op with
      | reset =>
        have : em1 = em.reset := Option.some.inj (by rw [← hop]; rfl)
        rw [this]; exact hreset em hP
      | data s =>
        have hpd : em.process_data s = some em1 := hop
        rw [ScreenEmulator.process_data,
          processLoopFuel_eq _ _ _ (le_refl _)] at hpd
        exact processLoop_preserve P hstep hesc hbufset _ _ em1 (hbufset em [] hP) hpd

theorem clamp01_le (v : Int) (n : Nat) : clamp01 v ((n : Int) - 1) ≤ n := by
  unfold clamp01; omega

theorem clamp01_lt (v : Int) (n : Nat) (hn : 0 < n) : clamp01 v ((n : Int) - 1) < n := by
  unfold clamp01; omega

/-- Exhaustive description of the successful outcomes of `csiCore`. -/
theorem csiCore_cases {rows cols : Nat} {ps : List Char} {cmd : Char}
    {screen : List (List Char)} {cursor : Nat × Nat}
    {sc : List (List Char) × (Nat × Nat)}
    (h : csiCore rows cols ps cmd screen cursor = some sc) :
    sc = (screen, cursor) ∨
    (∃ ri ci, sc = (screen, (clamp01 ri ((rows : Int) - 1), clamp01 ci ((cols : Int) - 1)))) ∨
    (∃ n, sc = (screen, (cursor.1, min (cols - 1) (cursor.2 + n)))) ∨
    (∃ n, sc = (screen, (cursor.1, cursor.2 - n))) ∨
    (cursor.2 < cols ∧ cursor.1 < rows ∧
      sc = (screen.set cursor.1 (eraseFrom (screen.getD cursor.1 []) cursor.2 cols), cursor)) := by
  simp only [csiCore] at h
  split at h
  · -- cmd = 'H'
    cases h0 : param0Based (splitOnChar ';' ps) 0 with
    | none => rw [h0] at h; exact Option.noConfusion h
    | some ri =>
      rw [h0, Option.some_bind] at h
      cases h1 : param0Based (splitOnChar ';' ps) 1 with
      | none => rw [h1] at h; exact Option.noConfusion h
      | some ci =>
        rw [h1, Option.some_bind] at h
        exact Or.inr (Or.inl ⟨ri, ci, (Option.some.inj h).symm⟩)
  · split at h
    · -- cmd = 'C'
      rw [Option.map_eq_some'] at h
      obtain ⟨n, -, hn⟩ := h
      exact Or.inr (Or.inr (Or.inl ⟨n, hn.symm⟩))
    · split at h
      · -- cmd = 'D'
        rw [Option.map_eq_some'] at h
        obtain ⟨n, -, hn⟩ := h
        exact Or.inr (Or.inr (Or.inr (Or.inl ⟨n, hn.symm⟩)))
      · split at h
        · -- cmd = 'K'
          split at h
          · split at h
            · split at h
              · rename_i hcol hrow
                refine Or.inr (Or.inr (Or.inr (Or.inr ⟨hcol, hrow, ?_⟩)))
                rw [← Option.some.inj h]
              · exact Option.noConfusion h
            · exact Or.inl (Option.some.inj h).symm
          · exact Or.inl (Option.some.inj h).symm
        · exact Or.inl (Option.some.inj h).symm

/-- Exhaustive description of the outcomes of `stepChar`. -/
theorem stepChar_cases (c : Char) (em : ScreenEmulator) :
    (c = '\n' ∧
      stepChar c em = { em with cursor_pos := (em.cursor_pos.1 + 1, em.cursor_pos.2) }) ∨
    stepChar c em = em ∨
    (em.cursor_pos.1 < em.rows ∧ em.cursor_pos.2 < em.cols ∧
      stepChar c em = { em with
        screen := em.screen.set em.cursor_pos.1
          ((em.screen.getD em.cursor_pos.1 []).set em.cursor_pos.2 c)
        cursor_pos := (em.cursor_pos.1, em.cursor_pos.2 + 1) }) := by
  unfold stepChar
  split
  · rename_i hn
    exact Or.inl ⟨hn, rfl⟩
  · split
    · exact Or.inr (Or.inl rfl)
    · split
      · rename_i hin
        exact Or.inr (Or.inr ⟨hin.1, hin.2, rfl⟩)
      · exact Or.inr (Or.inl rfl)

/-- The screen-shape invariant: the grid is `rows` rows of `cols` cells. -/
abbrev gridShape (em : ScreenEmulator) : Prop :=
  em.screen.length = em.rows ∧ ∀ row ∈ em.screen, row.length = em.cols

theorem gridShape_getD_length {em : ScreenEmulator} (hsh : gridShape em)
    {r : Nat} (hr : r < em.rows) : (em.screen.getD r []).length = em.cols := by
  have hr2 : r < em.screen.length := by rw [hsh.1]; exact hr
  rw [List.getD_eq_getElem?_getD, List.getElem?_eq_getElem hr2, Option.getD_some]
  exact hsh.2 _ (List.getElem_mem hr2)

theorem gridShape_set {em : ScreenEmulator} (hsh : gridShape em)
    {r : Nat} {line : List Char} (hline : line.length = em.cols) :
    (em.screen.set r line).length = em.rows ∧
      ∀ row ∈ em.screen.set r line, row.length = em.cols := by
  refine ⟨by rw [List.length_set]; exact hsh.1, fun row hrow => ?_⟩
  rcases List.mem_or_eq_of_mem_set hrow with hmem | rfl
  · exact hsh.2 row hmem
  · exact hline

theorem eraseFrom_length {line : List Char} {c cols : Nat}
    (hlen : line.length = cols) (hc : c < cols) :
    (eraseFrom line c cols).length = cols := by
  unfold eraseFrom
  rw [List.length_append, List.length_take, List.length_replicate]
  omega

/-- `gridShape` together with fixed dimensions is a session invariant. -/
theorem gridShape_session {rows cols : Nat} (ops : List EmulatorOp)
    (em em2 : ScreenEmulator)
    (hP : gridShape em ∧ em.rows = rows ∧ em.cols = cols)
    (h : applyEmulatorOps em ops = some em2) :
    gridShape em2 ∧ em2.rows = rows ∧ em2.cols = cols := by
  refine applyEmulatorOps_preserve
    (fun e => gridShape e ∧ e.rows = rows ∧ e.cols = cols) ?_ ?_ ?_ ?_ ops em em2 hP h
  · intro c e hPe
    rcases stepChar_cases c e with ⟨-, heq⟩ | heq | ⟨hr, hc, heq⟩ <;> rw [heq]
    · exact hPe
    · exact hPe
    · refine ⟨?_, hPe.2.1, hPe.2.2⟩
      show (e.screen.set e.cursor_pos.1
          ((e.screen.getD e.cursor_pos.1 []).set e.cursor_pos.2 c)).length = e.rows ∧
        ∀ row ∈ e.screen.set e.cursor_pos.1
          ((e.screen.getD e.cursor_pos.1 []).set e.cursor_pos.2 c), row.length = e.cols
      refine gridShape_set hPe.1 ?_
      rw [List.length_set]
      exact gridShape_getD_length hPe.1 hr
  · intro act e e2 hPe happ
    cases act with
    | skip =>
      rw [applyEsc, Option.some.injEq] at happ
      rw [← happ]; exact hPe
    | csi ps cmd =>
      rw [applyEsc, Option.map_eq_some'] at happ
      obtain ⟨sc, hsc, rfl⟩ := happ
      rcases csiCore_cases hsc with heq | ⟨ri, ci, heq⟩ | ⟨n, heq⟩ | ⟨n, heq⟩ |
        ⟨hcol, hrow, heq⟩ <;> rw [heq]
      · exact ⟨⟨hPe.1.1, hPe.1.2⟩, hPe.2.1, hPe.2.2⟩
      · exact ⟨⟨hPe.1.1, hPe.1.2⟩, hPe.2.1, hPe.2.2⟩
      · exact ⟨⟨hPe.1.1, hPe.1.2⟩, hPe.2.1, hPe.2.2⟩
      · exact ⟨⟨hPe.1.1, hPe.1.2⟩, hPe.2.1, hPe.2.2⟩
      · refine ⟨?_, hPe.2.1, hPe.2.2⟩
        show (e.screen.set e.cursor_pos.1
            (eraseFrom (e.screen.getD e.cursor_pos.1 []) e.cursor_pos.2 e.cols)).length = e.rows ∧
          ∀ row ∈ e.screen.set e.cursor_pos.1
            (eraseFrom (e.screen.getD e.cursor_pos.1 []) e.cursor_pos.2 e.cols),
            row.length = e.cols
        exact gridShape_set hPe.1 (eraseFrom_length (gridShape_getD_length hPe.1 hrow) hcol)
  · intro e b hPe
    exact ⟨⟨hPe.1.1, hPe.1.2⟩, hPe.2.1, hPe.2.2⟩
  · intro e hPe
    refine ⟨⟨?_, ?_⟩, hPe.2.1, hPe.2.2⟩
    · show (List.replicate e.rows (List.replicate e.cols ' ')).length = e.rows
      rw [List.length_replicate]
    · intro row hrow
      have hrow2 : row ∈ List.replicate e.rows (List.replicate e.cols ' ') := hrow
      show row.length = e.cols
      rw [List.eq_of_mem_replicate hrow2, List.length_replicate]

/-- The cursor column never exceeds `cols` (it can reach `cols` exactly,
after a write in the last column), across whole sessions. -/
theorem colBound_session {cols : Nat} (ops : List EmulatorOp)
    (em em2 : ScreenEmulator)
    (hP : em.cursor_pos.2 ≤ em.cols ∧ em.cols = cols)
    (h : applyEmulatorOps em ops = some em2) :
    em2.cursor_pos.2 ≤ em2.cols ∧ em2.cols = cols := by
  refine applyEmulatorOps_preserve
    (fun e => e.cursor_pos.2 ≤ e.cols ∧ e.cols = cols) ?_ ?_ ?_ ?_ ops em em2 hP h
  · intro c e hPe
    rcases stepChar_cases c e with ⟨-, heq⟩ | heq | ⟨hr, hc, heq⟩ <;> rw [heq]
    · exact hPe
    · exact hPe
    · exact ⟨by show e.cursor_pos.2 + 1 ≤ e.cols; omega, hPe.2⟩
  · intro act e e2 hPe happ
    cases act with
    | skip =>
      rw [applyEsc, Option.some.injEq] at happ
      rw [← happ]; exact hPe
    | csi ps cmd =>
      rw [applyEsc, Option.map_eq_some'] at happ
      obtain ⟨sc, hsc, rfl⟩ := happ
      rcases csiCore_cases hsc with heq | ⟨ri, ci, heq⟩ | ⟨n, heq⟩ | ⟨n, heq⟩ |
        ⟨hcol, hrow, heq⟩ <;> rw [heq]
      · exact hPe
      · exact ⟨clamp01_le ci e.cols, hPe.2⟩
      · refine ⟨?_, hPe.2⟩
        show min (e.cols - 1) (e.cursor_pos.2 + n) ≤ e.cols
        exact le_trans (min_le_left _ _) (Nat.sub_le _ _)
      · refine ⟨?_, hPe.2⟩
        show e.cursor_pos.2 - n ≤ e.cols
        exact le_trans (Nat.sub_le _ _) hPe.1
      · exact hPe
  · intro e b hPe
    exact hPe
  · intro e hPe
    exact ⟨Nat.zero_le _, hPe.2⟩

/-! ### Claims C2, C3 and C10 on the emulator -/

/-- C2 counterexample: the CSI sequence `ESC[?25H` — a parameter run
containing `'?'` terminated by `H` — makes `process_data` raise
(`int('?25')` is a Python `ValueError`), refuting the claim that
`process_data` never raises on such inputs. -/
theorem c2_counterexample :
    (freshScreenEmulator 24 80).process_data ['\x1b', '[', '?', '2', '5', 'H'] = none := by
  decide

/-- C3 counterexample: processing 24 newline characters on a fresh 24×80
emulator leaves the cursor row at 24, outside `[0, rows)` — `'\n'`
increments the row without clamping. -/
theorem c3_counterexample :
    ((freshScreenEmulator 24 80).process_data (List.replicate 24 '\n')).map
        (fun em => em.cursor_pos) = some (24, 0) ∧ ¬(24 < 24) := by
  decide

/-- C3 amended: after any session of `reset` / `process_data` calls on a
fresh 24×80 emulator the cursor column satisfies `col ≤ 80` (and row and
column are naturally non-negative); the row bound `row < rows` and the
strict column bound `col < cols` of the original claim do not hold. -/
theorem c3_amended_cursor_bounds (ops : List EmulatorOp) (em : ScreenEmulator)
    (h : applyEmulatorOps (freshScreenEmulator 24 80) ops = some em) :
    em.cursor_pos.2 ≤ 80 := by
  have hinv : em.cursor_pos.2 ≤ em.cols ∧ em.cols = 80 :=
    colBound_session ops (freshScreenEmulator 24 80) em
      ⟨by show (0 : Nat) ≤ 80; omega, rfl⟩ h
  rw [← hinv.2]
  exact hinv.1

/-- Witness for the amended C3 at a concrete session. -/
theorem c3_amended_cursor_bounds_witness :
    ∃ em, applyEmulatorOps (freshScreenEmulator 24 80)
        [EmulatorOp.data ['a', 'b'], EmulatorOp.reset, EmulatorOp.data ['c']] = some em ∧
      em.cursor_pos.2 ≤ 80 := by
  cases hem : applyEmulatorOps (freshScreenEmulator 24 80)
      [EmulatorOp.data ['a', 'b'], EmulatorOp.reset, EmulatorOp.data ['c']] with
  | none =>
    have hs : (applyEmulatorOps (freshScreenEmulator 24 80)
        [EmulatorOp.data ['a', 'b'], EmulatorOp.reset, EmulatorOp.data ['c']]).isSome = true := by
      decide
    rw [hem] at hs
    exact absurd hs (by simp)
  | some em => exact ⟨em, rfl, c3_amended_cursor_bounds _ em hem⟩

/-- C10 (confirmed): after any session of `reset` / `process_data` calls
on a fresh 24×80 emulator, `get_screen_text` reconstructs exactly 24
newline-separated lines of exactly 80 characters each (here stated on
`screen_lines`, the list of lines that `get_screen_text` joins with
`'\n'`). -/
theorem c10_screen_shape (ops : List EmulatorOp) (em : ScreenEmulator)
    (h : applyEmulatorOps (freshScreenEmulator 24 80) ops = some em) :
    em.screen_lines.length = 24 ∧ ∀ s ∈ em.screen_lines, s.length = 80 := by
  have hfresh : gridShape (freshScreenEmulator 24 80) := by
    constructor
    · show (List.replicate 24 (List.replicate 80 ' ')).length = 24
      rw [List.length_replicate]
    · intro row hrow
      have hrow2 : row ∈ List.replicate 24 (List.replicate 80 ' ') := hrow
      show row.length = 80
      rw [List.eq_of_mem_replicate hrow2, List.length_replicate]
  have hinv : gridShape em ∧ em.rows = 24 ∧ em.cols = 80 :=
    gridShape_session ops (freshScreenEmulator 24 80) em
      ⟨hfresh, rfl, rfl⟩ h
  constructor
  · rw [ScreenEmulator.screen_lines, List.length_map, hinv.1.1, hinv.2.1]
  · intro s hs
    rw [ScreenEmulator.screen_lines, List.mem_map] at hs
    obtain ⟨row, hrow, rfl⟩ := hs
    rw [String.length_mk]
    rw [hinv.1.2 row hrow, hinv.2.2]

/-- Witness for C10 at a concrete session. -/
theorem c10_screen_shape_witness :
    ∃ em, applyEmulatorOps (freshScreenEmulator 24 80)
        [EmulatorOp.data ['h', 'i'], EmulatorOp.data ['\x1b', '[', 'K']] = some em ∧
      em.screen_lines.length = 24 ∧ ∀ s ∈ em.screen_lines, s.length = 80 := by
  cases hem : applyEmulatorOps (freshScreenEmulator 24 80)
      [EmulatorOp.data ['h', 'i'], EmulatorOp.data ['\x1b', '[', 'K']] with
  | none =>
    have hs : (applyEmulatorOps (freshScreenEmulator 24 80)
        [EmulatorOp.data ['h', 'i'], EmulatorOp.data ['\x1b', '[', 'K']]).isSome = true := by
      decide
    rw [hem] at hs
    exact absurd hs (by simp)
  | some em => exact ⟨em, rfl, c10_screen_shape _ em hem⟩

/-! ### Totality of `process_data` away from the two exception sites
(claim C2) -/

theorem splitOnChar_ne_nil (sep : Char) (l : List Char) : splitOnChar sep l ≠ [] := by
  cases l with
  | nil => simp [splitOnChar]
  | cons c t =>
    rw [splitOnChar]
    split
    · simp
    · split
      · simp
      · simp

theorem splitOnChar_mem {sep : Char} :
    ∀ {l : List Char} {tok : List Char}, tok ∈ splitOnChar sep l →
      ∀ {c : Char}, c ∈ tok → c ∈ l ∧ c ≠ sep := by
  intro l
  induction l with
  | nil =>
    intro tok htok c hc
    rw [splitOnChar, List.mem_singleton] at htok
    rw [htok] at hc
    exact absurd hc (List.not_mem_nil c)
  | cons c0 t ih =>
    intro tok htok c hc
    rw [splitOnChar] at htok
    split at htok
    · rename_i hsep
      rcases List.mem_cons.mp htok with rfl | htok2
      · exact absurd hc (List.not_mem_nil c)
      · obtain ⟨hmem, hne⟩ := ih htok2 hc
        exact ⟨List.mem_cons_of_mem c0 hmem, hne⟩
    · rename_i hsep
      rcases hsp : splitOnChar sep t with - | ⟨h0, r0⟩
      · exact absurd hsp (splitOnChar_ne_nil sep t)
      · rw [hsp] at htok
        rcases List.mem_cons.mp htok with rfl | htok2
        · rcases List.mem_cons.mp hc with rfl | hc2
          · exact ⟨List.mem_cons_self c t, hsep⟩
          · obtain ⟨hmem, hne⟩ := ih (by rw [hsp]; exact List.mem_cons_self h0 r0) hc2
            exact ⟨List.mem_cons_of_mem c0 hmem, hne⟩
        · obtain ⟨hmem, hne⟩ := ih (by rw [hsp]; exact List.mem_cons_of_mem h0 htok2) hc
          exact ⟨List.mem_cons_of_mem c0 hmem, hne⟩

theorem isParamChar_isDigit {c : Char} (h1 : isParamChar c = true)
    (h2 : c ≠ ';') (h3 : c ≠ '?') : c.isDigit = true := by
  rw [isParamChar] at h1
  simp only [Bool.or_eq_true, decide_eq_true_eq] at h1
  rcases h1 with (hd | hs) | hq
  · exact hd
  · exact absurd hs h2
  · exact absurd hq h3

theorem pyInt_isSome {s : List Char} (hne : s ≠ [])
    (hd : ∀ c ∈ s, c.isDigit = true) : ∃ n, pyInt s = some n := by
  refine ⟨s.foldl (fun n c => n * 10 + (c.toNat - 48)) 0, ?_⟩
  rw [pyInt, if_pos ⟨hne, List.all_eq_true.mpr hd⟩]

theorem param0Based_isSome {params : List (List Char)} (k : Nat)
    (h : ∀ tok ∈ params, ∀ c ∈ tok, c.isDigit = true) :
    ∃ v, param0Based params k = some v := by
  cases hk : params.get? k with
  | none =>
    refine ⟨0, ?_⟩
    rw [param0Based, hk]
  | some p =>
    by_cases hp : p = []
    · refine ⟨0, ?_⟩
      rw [param0Based, hk]
      show (if p ≠ [] then (pyInt p).map (fun n => (n : Int) - 1) else some 0) = some 0
      rw [if_neg (by rw [hp]; simp)]
    · obtain ⟨n, hn⟩ := pyInt_isSome hp (h p (List.get?_mem hk))
      refine ⟨(n : Int) - 1, ?_⟩
      rw [param0Based, hk]
      show (if p ≠ [] then (pyInt p).map (fun n => (n : Int) - 1) else some 0) =
        some ((n : Int) - 1)
      rw [if_pos hp, hn]
      rfl

theorem paramCount_isSome {params : List (List Char)}
    (h : ∀ tok ∈ params, ∀ c ∈ tok, c.isDigit = true) :
    ∃ v, paramCount params = some v := by
  cases hk : params.head? with
  | none =>
    refine ⟨1, ?_⟩
    rw [paramCount, hk]
  | some p =>
    by_cases hp : p = []
    · refine ⟨1, ?_⟩
      rw [paramCount, hk]
      show (if p ≠ [] then pyInt p else some 1) = some 1
      rw [if_neg (by rw [hp]; simp)]
    · obtain ⟨n, hn⟩ := pyInt_isSome hp (h p (List.mem_of_mem_head? hk))
      refine ⟨n, ?_⟩
      rw [paramCount, hk]
      show (if p ≠ [] then pyInt p else some 1) = some n
      rw [if_pos hp, hn]

/-- On parameter runs without `'?'` and with the cursor row inside the
grid, `csiCore` never fails, and it keeps the cursor row inside the
grid. -/
theorem csiCore_isSome {rows cols : Nat} {ps : List Char} (cmd : Char)
    (screen : List (List Char)) (cursor : Nat × Nat)
    (hps : ∀ c ∈ ps, isParamChar c = true ∧ c ≠ '?')
    (hrow : cursor.1 < rows) :
    ∃ sc, csiCore rows cols ps cmd screen cursor = some sc ∧ sc.2.1 < rows := by
  have hdig : ∀ tok ∈ splitOnChar ';' ps, ∀ c ∈ tok, c.isDigit = true := by
    intro tok htok c hc
    obtain ⟨hmem, hsep⟩ := splitOnChar_mem htok hc
    exact isParamChar_isDigit (hps c hmem).1 hsep (hps c hmem).2
  simp only [csiCore]
  by_cases hH : cmd = 'H'
  · rw [if_pos hH]
    obtain ⟨ri, h0⟩ := param0Based_isSome 0 hdig
    obtain ⟨ci, h1⟩ := param0Based_isSome 1 hdig
    rw [h0, Option.some_bind, h1, Option.some_bind]
    exact ⟨_, rfl, clamp01_lt ri rows (by omega)⟩
  · rw [if_neg hH]
    by_cases hC : cmd = 'C'
    · rw [if_pos hC]
      obtain ⟨n, hn⟩ := paramCount_isSome hdig
      rw [hn]
      exact ⟨_, rfl, hrow⟩
    · rw [if_neg hC]
      by_cases hD : cmd = 'D'
      · rw [if_pos hD]
        obtain ⟨n, hn⟩ := paramCount_isSome hdig
        rw [hn]
        exact ⟨_, rfl, hrow⟩
      · rw [if_neg hD]
        by_cases hK : cmd = 'K'
        · rw [if_pos hK]
          by_cases hp0 : ps = [] ∨ ps = ['0']
          · rw [if_pos hp0]
            by_cases hcol : cursor.2 < cols
            · rw [if_pos hcol, if_pos hrow]
              exact ⟨_, rfl, hrow⟩
            · rw [if_neg hcol]
              exact ⟨_, rfl, hrow⟩
          · rw [if_neg hp0]
            exact ⟨_, rfl, hrow⟩
        · rw [if_neg hK]
          exact ⟨_, rfl, hrow⟩

/-- A successful escape dispatch keeps the cursor row inside the grid. -/
theorem applyEsc_row_lt {act : EscAct} {em em2 : ScreenEmulator}
    (h : applyEsc act em = some em2) (hrow : em.cursor_pos.1 < em.rows) :
    em2.cursor_pos.1 < em2.rows := by
  cases act with
  | skip =>
    rw [applyEsc, Option.some.injEq] at h
    rw [← h]; exact hrow
  | csi ps cmd =>
    rw [applyEsc, Option.map_eq_some'] at h
    obtain ⟨sc, hsc, rfl⟩ := h
    rcases csiCore_cases hsc with heq | ⟨ri, ci, heq⟩ | ⟨n, heq⟩ | ⟨n, heq⟩ |
      ⟨hcol, hr2, heq⟩ <;> rw [heq]
    · exact hrow
    · exact clamp01_lt ri em.rows (by omega)
    · exact hrow
    · exact hrow
    · exact hrow

theorem parseEsc_csi_params {t : List Char} {ps : List Char} {cmd : Char}
    {r : List Char} (h : parseEsc t = some (.csi ps cmd, r)) :
    ∀ c ∈ ps, isParamChar c = true ∧ c ∈ t := by
  match t with
  | [] => exact absurd h (by simp [parseEsc])
  | c0 :: t2 =>
    simp only [parseEsc] at h
    split at h
    · rename_i hb
      cases hdw : t2.dropWhile isParamChar with
      | nil => rw [hdw] at h; exact Option.noConfusion h
      | cons cmd2 t3 =>
        rw [hdw] at h
        have h2 := Option.some.inj h
        injection h2 with hact hr
        injection hact with hps hcmd
        intro c hc
        rw [← hps] at hc
        exact ⟨List.mem_takeWhile_imp hc,
          List.mem_cons_of_mem c0 ((List.takeWhile_sublist _).subset hc)⟩
    · rename_i hb
      split at h
      · cases t2 with
        | nil => exact Option.noConfusion h
        | cons x t3 =>
          have h2 := Option.some.inj h
          injection h2 with hact hr
          exact absurd hact (by simp)
      · have h2 := Option.some.inj h
        injection h2 with hact hr
        exact absurd hact (by simp)

theorem parseEsc_rest_subset {t : List Char} {act : EscAct} {r : List Char}
    (h : parseEsc t = some (act, r)) : ∀ c ∈ r, c ∈ t := by
  match t with
  | [] => exact absurd h (by simp [parseEsc])
  | c0 :: t2 =>
    simp only [parseEsc] at h
    split at h
    · cases hdw : t2.dropWhile isParamChar with
      | nil => rw [hdw] at h; exact Option.noConfusion h
      | cons cmd2 t3 =>
        rw [hdw] at h
        have h2 := Option.some.inj h
        injection h2 with hact hr
        intro c hc
        rw [← hr] at hc
        refine List.mem_cons_of_mem c0 ((List.dropWhile_sublist isParamChar).subset ?_)
        rw [hdw]
        exact List.mem_cons_of_mem cmd2 hc
    · split at h
      · cases t2 with
        | nil => exact Option.noConfusion h
        | cons x t3 =>
          have h2 := Option.some.inj h
          injection h2 with hact hr
          intro c hc
          rw [← hr] at hc
          exact List.mem_cons_of_mem c0 (List.mem_cons_of_mem x hc)
      · have h2 := Option.some.inj h
        injection h2 with hact hr
        intro c hc
        rw [← hr] at hc
        exact List.mem_cons_of_mem c0 hc

/-- The interpretation loop never fails on data without `'?'` and `'\n'`,
starting with the cursor row inside the grid. -/
theorem processLoop_total (em : ScreenEmulator) (data : List Char) :
    (∀ c ∈ data, c ≠ '?' ∧ c ≠ '\n') → em.cursor_pos.1 < em.rows →
      ∃ em2, processLoop em data = some em2 ∧ em2.cursor_pos.1 < em2.rows := by
  induction em, data using processLoop.induct with
  | case1 em =>
    intro hall hrow
    exact ⟨em, processLoop_nil em, hrow⟩
  | case2 em t hpe =>
    intro hall hrow
    exact ⟨_, processLoop_esc_incomplete em t hpe, hrow⟩
  | case3 em t act r hpe happ =>
    intro hall hrow
    exfalso
    cases act with
    | skip => exact Option.noConfusion happ
    | csi ps cmd =>
      rw [applyEsc] at happ
      obtain ⟨sc, hsc, -⟩ := csiCore_isSome cmd em.screen em.cursor_pos
        (fun c hc => ⟨(parseEsc_csi_params hpe c hc).1,
          (hall c (List.mem_cons_of_mem _ (parseEsc_csi_params hpe c hc).2)).1⟩) hrow
      rw [hsc] at happ
      exact Option.noConfusion happ
  | case4 em t act r hpe em2 happ hlen ih =>
    intro hall hrow
    obtain ⟨em3, h3, hrow3⟩ := ih
      (fun c hc => hall c (List.mem_cons_of_mem _ (parseEsc_rest_subset hpe c hc)))
      (applyEsc_row_lt happ hrow)
    exact ⟨em3, by rw [processLoop_esc_complete em t act r hpe, happ, Option.some_bind,
      h3], hrow3⟩
  | case5 em c t hc ih =>
    intro hall hrow
    have hrow2 : (stepChar c em).cursor_pos.1 < (stepChar c em).rows := by
      rcases stepChar_cases c em with ⟨hn, heq⟩ | heq | ⟨hr, hc2, heq⟩ <;> rw [heq]
      · exact absurd hn (hall c (List.mem_cons_self c t)).2
      · exact hrow
      · exact hrow
    obtain ⟨em3, h3, hrow3⟩ := ih (fun x hx => hall x (List.mem_cons_of_mem c hx)) hrow2
    exact ⟨em3, by rw [processLoop_char em c t hc, h3], hrow3⟩

/-- C2 amended: `process_data` on a fresh 24×80 emulator never raises on
inputs containing neither `'?'` nor `'\n'` (in particular all escape
sequences with well-formed numeric parameters are safe); the two
exception sites excluded by this hypothesis are the ones exhibited by the
counterexample and by `ESC[K` with the cursor row pushed below the grid
by `'\n'`. -/
theorem c2_amended_no_exception (data : List Char)
    (h : ∀ c ∈ data, c ≠ '?' ∧ c ≠ '\n') :
    ∃ em, (freshScreenEmulator 24 80).process_data data = some em := by
  obtain ⟨em2, hem, -⟩ := processLoop_total (freshScreenEmulator 24 80) data h
    (by show (0 : Nat) < 24; omega)
  refine ⟨em2, ?_⟩
  rw [ScreenEmulator.process_data, processLoopFuel_eq _ _ _ (le_refl _)]
  exact hem

/-- Witness for the amended C2 on a concrete escape-bearing input. -/
theorem c2_amended_no_exception_witness :
    (∀ c ∈ ['a', '\x1b', '[', '1', '2', ';', '4', '0', 'H', 'z'],
        c ≠ '?' ∧ c ≠ '\n') ∧
      ∃ em, (freshScreenEmulator 24 80).process_data
        ['a', '\x1b', '[', '1', '2', ';', '4', '0', 'H', 'z'] = some em :=
  ⟨by decide, c2_amended_no_exception _ (by decide)⟩

/-! ### Claim C6: erase-in-line -/

theorem eraseFrom_getD_lt {line : List Char} {c cols j : Nat}
    (hlen : line.length = cols) (hc : c ≤ cols) (hj : j < c) :
    (eraseFrom line c cols).getD j ' ' = line.getD j ' ' := by
  have htake : (line.take c).length = c := by
    rw [List.length_take]; omega
  rw [eraseFrom, List.getD_eq_getElem?_getD, List.getElem?_append, htake, if_pos hj,
    List.getElem?_take, if_pos hj, ← List.getD_eq_getElem?_getD]

theorem eraseFrom_getD_ge {line : List Char} {c cols j : Nat}
    (hlen : line.length = cols) (hcj : c ≤ j) (hj : j < cols) :
    (eraseFrom line c cols).getD j ' ' = ' ' := by
  have hc : c ≤ cols := le_trans hcj (le_of_lt hj)
  have htake : (line.take c).length = c := by
    rw [List.length_take]; omega
  rw [eraseFrom, List.getD_eq_getElem?_getD, List.getElem?_append, htake,
    if_neg (by omega), List.getElem?_replicate, if_pos (by omega)]
  rfl

/-- C6 (confirmed): for a cursor `(r, c)` inside the grid, `ESC[K` (no
parameter) blanks `grid[r][c:]` and leaves `grid[r][0:c]`, every other
row, the cursor position and the carry-over buffer unchanged. -/
theorem c6_erase_in_line (em : ScreenEmulator) (r c : Nat)
    (hbuf : em.incomplete_data_buffer = [])
    (hcur : em.cursor_pos = (r, c))
    (hr : r < em.rows) (hc : c < em.cols)
    (hsh : gridShape em) :
    ∃ em2, em.process_data ['\x1b', '[', 'K'] = some em2 ∧
      em2.cursor_pos = em.cursor_pos ∧
      em2.incomplete_data_buffer = [] ∧
      (∀ i, i ≠ r → em2.screen.getD i [] = em.screen.getD i []) ∧
      (∀ j, j < c → (em2.screen.getD r []).getD j ' ' = (em.screen.getD r []).getD j ' ') ∧
      (∀ j, c ≤ j → j < em.cols → (em2.screen.getD r []).getD j ' ' = ' ') := by
  have he : ({ em with incomplete_data_buffer := [] } : ScreenEmulator) = em := by
    cases em; simp_all
  have hpe : parseEsc ['[', 'K'] = some (.csi [] 'K', []) := by decide
  have hlen : (em.screen.getD r []).length = em.cols := gridShape_getD_length hsh hr
  have hrl : r < em.screen.length := by rw [hsh.1]; exact hr
  have hcore : csiCore em.rows em.cols [] 'K' em.screen em.cursor_pos =
      some (em.screen.set r (eraseFrom (em.screen.getD r []) c em.cols), (r, c)) := by
    rw [csiCore, if_neg (by decide), if_neg (by decide), if_neg (by decide),
      if_pos (by decide), if_pos (Or.inl rfl), hcur]
    show (if c < em.cols then if r < em.rows then _ else none else _) = _
    rw [if_pos hc, if_pos hr]
  have happ : applyEsc (.csi [] 'K') em =
      some { em with
        screen := em.screen.set r (eraseFrom (em.screen.getD r []) c em.cols)
        cursor_pos := (r, c) } := by
    rw [applyEsc, hcore]
    rfl
  refine ⟨{ em with
      screen := em.screen.set r (eraseFrom (em.screen.getD r []) c em.cols)
      cursor_pos := (r, c) }, ?_, ?_, ?_, ?_, ?_, ?_⟩
  · rw [ScreenEmulator.process_data, processLoopFuel_eq _ _ _ (le_refl _), hbuf,
      List.nil_append, he, processLoop_esc_complete em ['[', 'K'] (.csi [] 'K') [] hpe,
      happ, Option.some_bind, processLoop_nil, hbuf]
  · rw [hcur]
  · exact hbuf
  · intro i hi
    show (em.screen.set r (eraseFrom (em.screen.getD r []) c em.cols)).getD i [] =
      em.screen.getD i []
    rw [List.getD_eq_getElem?_getD, List.getElem?_set_ne (Ne.symm hi),
      ← List.getD_eq_getElem?_getD]
  · intro j hj
    show ((em.screen.set r (eraseFrom (em.screen.getD r []) c em.cols)).getD r []).getD j ' ' =
      (em.screen.getD r []).getD j ' '
    rw [List.getD_eq_getElem?_getD (em.screen.set r _), List.getElem?_set_self hrl,
      Option.getD_some]
    exact eraseFrom_getD_lt hlen (le_of_lt hc) hj
  · intro j hcj hj
    show ((em.screen.set r (eraseFrom (em.screen.getD r []) c em.cols)).getD r []).getD j ' ' = ' '
    rw [List.getD_eq_getElem?_getD (em.screen.set r _), List.getElem?_set_self hrl,
      Option.getD_some]
    exact eraseFrom_getD_ge hlen hcj hj

/-- A small concrete emulator for the C6 witness. -/
def c6em : ScreenEmulator :=
  { rows := 2
    cols := 3
    screen := [['a', 'b', 'x'], ['d', 'e', 'f']]
    cursor_pos := (0, 1)
    incomplete_data_buffer := [] }

/-- Witness for C6 on a concrete 2×3 emulator with the cursor at (0,1). -/
theorem c6_erase_in_line_witness :
    ∃ em2, c6em.process_data ['\x1b', '[', 'K'] = some em2 ∧
      em2.cursor_pos = c6em.cursor_pos ∧
      em2.incomplete_data_buffer = [] ∧
      (∀ i, i ≠ 0 → em2.screen.getD i [] = c6em.screen.getD i []) ∧
      (∀ j, j < 1 → (em2.screen.getD 0 []).getD j ' ' = (c6em.screen.getD 0 []).getD j ' ') ∧
      (∀ j, 1 ≤ j → j < c6em.cols → (em2.screen.getD 0 []).getD j ' ' = ' ') :=
  c6_erase_in_line c6em 0 1 rfl rfl (by decide) (by decide) (by decide)

/-! ### Claim C7: end-to-end positioning example -/

/-- The C7 input: `ESC[10;3H` `1.0` `ESC[12;10H` `120.0`. -/
def c7Input : List Char :=
  ['\x1b', '[', '1', '0', ';', '3', 'H', '1', '.', '0',
   '\x1b', '[', '1', '2', ';', '1', '0', 'H', '1', '2', '0', '.', '0']

/-- A blank 80-column line. -/
def blankLine80 : String := String.mk (List.replicate 80 ' ')

/-- Expected row 9: `"1.0"` at columns 2–4. -/
def c7Row9 : String :=
  String.mk (List.replicate 2 ' ' ++ ['1', '.', '0'] ++ List.replicate 75 ' ')

/-- Expected row 11: `"120.0"` at columns 9–13. -/
def c7Row11 : String :=
  String.mk (List.replicate 9 ' ' ++ ['1', '2', '0', '.', '0'] ++ List.replicate 66 ' ')

/-- The expected screen of C7, row by row. -/
def c7ExpectedLines : List String :=
  List.replicate 9 blankLine80 ++ [c7Row9] ++ [blankLine80] ++ [c7Row11] ++
    List.replicate 12 blankLine80

/-- The full expected 24×80 screen text for C7. -/
def c7Expected : String :=
  String.intercalate "\n" c7ExpectedLines

set_option maxRecDepth 4000 in
/-- C7 (confirmed): the example byte sequence positions `"1.0"` at row 9
columns 2–4 and `"120.0"` at row 11 columns 9–13 of a fresh 24×80 grid,
all other cells spaces, as read back by `get_screen_text`. -/
theorem c7_end_to_end :
    ((freshScreenEmulator 24 80).process_data c7Input).map
        ScreenEmulator.get_screen_text = some c7Expected := by
  have hlines : ((freshScreenEmulator 24 80).process_data c7Input).map
      ScreenEmulator.screen_lines = some c7ExpectedLines := by
    decide
  cases hpd : (freshScreenEmulator 24 80).process_data c7Input with
  | none => rw [hpd] at hlines; exact Option.noConfusion hlines
  | some em =>
    rw [hpd, Option.map_some'] at hlines
    rw [Option.map_some', ScreenEmulator.get_screen_text, Option.some.inj hlines,
      c7Expected]

/-! ## SequenceManager (`sequence_manager.py`)

The sequencer is driven by a Qt single-shot timer on a single cooperative
thread; the embedding makes the event flow explicit: `now` is the virtual
clock, firing the armed one-shot timer advances it by `delay`, and every
`send_command` / `sequence_finished` emission is recorded in `events`
with its timestamp. -/

/-- An emission of the sequencer: the `send_command` signal or the
`sequence_finished` notification. -/
inductive SeqEvent where
  | command (c : String)
  | finished (msg : String)
deriving DecidableEq, Repr

/-- The message carried by the `sequence_finished` signal. -/
def finishedMsg : String := "Secuencia de calibración rápida completada."

/-- State of `SequenceManager`: the pending `command_queue`, the configured
inter-command `delay`, plus the virtual clock, the emission log and the
one-shot timer flag of the cooperative-timer model. -/
structure SequenceManager where
  command_queue : List String
  delay : Nat
  now : Nat
  events : List (Nat × SeqEvent)
  timer_armed : Bool
deriving DecidableEq, Repr

/-- `SequenceManager.__init__(delay)`. -/
def initSequenceManager (delay : Nat) : SequenceManager :=
  { command_queue := [], delay := delay, now := 0, events := [], timer_armed := false }

/-- `_send_next_command`: pop and emit the head command; arm the one-shot
timer when commands remain, otherwise emit `sequence_finished`. -/
def send_next_command (s : SequenceManager) : SequenceManager :=
  match s.command_queue with
  | [] => s
  | c :: rest =>
    if rest.isEmpty then
      { s with
        command_queue := rest
        events := s.events ++ [(s.now, .command c), (s.now, .finished finishedMsg)]
        timer_armed := false }
    else
      { s with
        command_queue := rest
        events := s.events ++ [(s.now, .command c)]
        timer_armed := true }

/-- `start_sequence(commands)`: replace the queue and dispatch at once. -/
def start_sequence (s : SequenceManager) (commands : List String) : SequenceManager :=
  send_next_command { s with command_queue := commands }

/-- Expiry of the armed one-shot timer: `delay` elapses, then
`_send_next_command` runs. -/
def timer_fire (s : SequenceManager) : SequenceManager :=
  if s.timer_armed then
    send_next_command { s with now := s.now + s.delay, timer_armed := false }
  else s

/-- Drive the cooperative timer loop until the timer is disarmed. -/
def run_timers : Nat → SequenceManager → SequenceManager
  | 0, s => s
  | fuel + 1, s => if s.timer_armed then run_timers fuel (timer_fire s) else s

/-- A whole `start_sequence` run on a fresh manager, timers driven to
quiescence. -/
def run_sequence (delay : Nat) (commands : List String) : SequenceManager :=
  run_timers commands.length (start_sequence (initSequenceManager delay) commands)

/-- The emission trace the sequencer should produce from time `t0`:
command `i` at `t0 + i*d`, and the finished notification at the time of
the last command. -/
def expected_trace (t0 d : Nat) : List String → List (Nat × SeqEvent)
  | [] => []
  | [c] => [(t0, .command c), (t0, .finished finishedMsg)]
  | c :: c2 :: rest => (t0, .command c) :: expected_trace (t0 + d) d (c2 :: rest)

theorem run_timers_trace :
    ∀ (cmds : List String) (d t0 : Nat) (ev : List (Nat × SeqEvent)), cmds ≠ [] →
      run_timers cmds.length
          (send_next_command
            { command_queue := cmds, delay := d, now := t0, events := ev,
              timer_armed := false }) =
        { command_queue := [], delay := d, now := t0 + (cmds.length - 1) * d,
          events := ev ++ expected_trace t0 d cmds, timer_armed := false } := by
  intro cmds
  induction cmds with
  | nil => intro d t0 ev h; exact absurd rfl h
  | cons c rest ih =>
    intro d t0 ev h
    cases rest with
    | nil =>
      have h1 : run_timers [c].length (send_next_command
          { command_queue := [c], delay := d, now := t0, events := ev,
            timer_armed := false }) =
        { command_queue := [], delay := d, now := t0,
          events := ev ++ [(t0, SeqEvent.command c), (t0, SeqEvent.finished finishedMsg)],
          timer_armed := false } := rfl
      rw [h1, expected_trace]
      simp
    | cons c2 rest2 =>
      have h1 : run_timers (c :: c2 :: rest2).length
          (send_next_command
            { command_queue := c :: c2 :: rest2, delay := d, now := t0, events := ev,
              timer_armed := false }) =
        run_timers (c2 :: rest2).length (send_next_command
          { command_queue := c2 :: rest2, delay := d, now := t0 + d,
            events := ev ++ [(t0, SeqEvent.command c)], timer_armed := false }) := rfl
      rw [h1, ih d (t0 + d) (ev ++ [(t0, SeqEvent.command c)]) (by simp), expected_trace]
      have hnow : t0 + d + ((c2 :: rest2).length - 1) * d =
          t0 + ((c :: c2 :: rest2).length - 1) * d := by
        simp only [List.length_cons, Nat.add_sub_cancel]
        ring
      rw [hnow, List.append_assoc]
      rfl

theorem expected_trace_length :
    ∀ (cmds : List String) (t0 d : Nat), cmds ≠ [] →
      (expected_trace t0 d cmds).length = cmds.length + 1 := by
  intro cmds
  induction cmds with
  | nil => intro t0 d h; exact absurd rfl h
  | cons c rest ih =>
    intro t0 d h
    cases rest with
    | nil => rfl
    | cons c2 rest2 =>
      rw [expected_trace, List.length_cons, ih (t0 + d) d (by simp)]
      rfl

theorem expected_trace_getD_lt :
    ∀ (cmds : List String) (t0 d i : Nat), i < cmds.length →
      (expected_trace t0 d cmds).getD i (0, .finished "") =
        (t0 + i * d, .command (cmds.getD i "")) := by
  intro cmds
  induction cmds with
  | nil => intro t0 d i hi; exact absurd hi (by simp)
  | cons c rest ih =>
    intro t0 d i hi
    cases rest with
    | nil =>
      have hi0 : i = 0 := by simp at hi; omega
      rw [hi0, expected_trace]
      simp
    | cons c2 rest2 =>
      cases i with
      | zero => rw [expected_trace]; simp
      | succ k =>
        rw [expected_trace]
        show (expected_trace (t0 + d) d (c2 :: rest2)).getD k (0, .finished "") =
          (t0 + (k + 1) * d, .command ((c2 :: rest2).getD k ""))
        rw [ih (t0 + d) d k (by simp at hi ⊢; omega)]
        refine congrArg (fun x => (x, SeqEvent.command ((c2 :: rest2).getD k ""))) ?_
        ring

theorem expected_trace_getD_last :
    ∀ (cmds : List String) (t0 d : Nat), cmds ≠ [] →
      (expected_trace t0 d cmds).getD cmds.length (0, .finished "") =
        (t0 + (cmds.length - 1) * d, .finished finishedMsg) := by
  intro cmds
  induction cmds with
  | nil => intro t0 d h; exact absurd rfl h
  | cons c rest ih =>
    intro t0 d h
    cases rest with
    | nil => simp [expected_trace]
    | cons c2 rest2 =>
      rw [expected_trace]
      show (expected_trace (t0 + d) d (c2 :: rest2)).getD (c2 :: rest2).length
          (0, .finished "") =
        (t0 + ((c :: c2 :: rest2).length - 1) * d, .finished finishedMsg)
      rw [ih (t0 + d) d (by simp)]
      refine congrArg (fun x => (x, SeqEvent.finished finishedMsg)) ?_
      simp only [List.length_cons, Nat.add_sub_cancel]
      ring

/-- C8 (confirmed): for a non-empty command list, `start_sequence` (with
the cooperative one-shot timer driven to quiescence) emits command `i` at
time `i * delay` — the first immediately, each next one a full delay after
the previous — every command exactly once in list order, and the finished
notification exactly once, at the time of the last command. -/
theorem c8_sequencer_ordering (delay : Nat) (cmds : List String) (h : cmds ≠ []) :
    (run_sequence delay cmds).events.length = cmds.length + 1 ∧
      (∀ i, i < cmds.length →
        (run_sequence delay cmds).events.getD i (0, .finished "") =
          (i * delay, .command (cmds.getD i ""))) ∧
      (run_sequence delay cmds).events.getD cmds.length (0, .finished "") =
        ((cmds.length - 1) * delay, .finished finishedMsg) := by
  have htr := run_timers_trace cmds delay 0 [] h
  have hrun : run_sequence delay cmds =
      { command_queue := [], delay := delay, now := 0 + (cmds.length - 1) * delay,
        events := [] ++ expected_trace 0 delay cmds, timer_armed := false } := by
    rw [run_sequence, start_sequence]
    exact htr
  rw [hrun]
  simp only [List.nil_append]
  refine ⟨expected_trace_length cmds 0 delay h, fun i hi => ?_, ?_⟩
  · rw [expected_trace_getD_lt cmds 0 delay i hi]
    rw [Nat.zero_add]
  · rw [expected_trace_getD_last cmds 0 delay h]
    rw [Nat.zero_add]

/-- Witness for C8 on the spec example `["1","2","3"]` with delay 500. -/
theorem c8_sequencer_ordering_witness :
    (["1", "2", "3"] : List String) ≠ [] ∧
      ((run_sequence 500 ["1", "2", "3"]).events.length =
          (["1", "2", "3"] : List String).length + 1 ∧
        (∀ i, i < (["1", "2", "3"] : List String).length →
          (run_sequence 500 ["1", "2", "3"]).events.getD i (0, .finished "") =
            (i * 500, .command ((["1", "2", "3"] : List String).getD i ""))) ∧
        (run_sequence 500 ["1", "2", "3"]).events.getD
            (["1", "2", "3"] : List String).length (0, .finished "") =
          (((["1", "2", "3"] : List String).length - 1) * 500,
            .finished finishedMsg)) :=
  ⟨by decide, c8_sequencer_ordering 500 ["1", "2", "3"] (by decide)⟩

/-! ## StateManager (`state_manager.py`)

The configuration (`menu_config.json`) is modelled as an insertion-ordered
association list `config_states` mirroring `self.config['states']`; the
Qt signals and `menu_manager` notifications carry no state back into the
`StateManager` and are not modelled.  `process_screen_text` returns
`Option`: `none` is the `KeyError` raised when the hard-coded
`CALIBRAR_DATA_ENTRY` escape looks up a missing `CALIBRAR_MENU` entry. -/

/-- Contiguous-substring search on character lists. -/
def substrAux (needle : List Char) : List Char → Bool
  | [] => needle.isEmpty
  | c :: t => needle.isPrefixOf (c :: t) || substrAux needle t

/-- Python substring test `needle in haystack`. -/
def containsSub (needle hay : String) : Bool :=
  substrAux needle.toList hay.toList

/-- Python `\s` over the ASCII range. -/
def isSpaceChar (c : Char) : Bool :=
  c = ' ' || c = '\t' || c = '\n' || c = '\r' || c = '\x0b' || c = '\x0c'

/-- The regex class `[0-9.]`. -/
def isNumChar (c : Char) : Bool := c.isDigit || c = '.'

/-- Python `str.strip()`. -/
def stripChars (l : List Char) : List Char :=
  ((l.dropWhile isSpaceChar).reverse.dropWhile isSpaceChar).reverse

/-- `re.search` driver: try the position matcher at every suffix, leftmost
match wins. -/
def searchWith (m : List Char → Option (List Char)) : List Char → Option (List Char)
  | [] => m []
  | c :: t =>
    match m (c :: t) with
    | some v => some v
    | none => searchWith m t

/-- Matcher for `NAME\s*=\s*([0-9.]+)` anchored at the current position
(returns capture group 1).  The whitespace runs are maximal-munch exact
here because `=` and `[0-9.]` are disjoint from `\s`. -/
def matchValEqAt (name : List Char) (s : List Char) : Option (List Char) :=
  if s.take name.length = name then
    match (s.drop name.length).dropWhile isSpaceChar with
    | '=' :: s2 =>
      let num := (s2.dropWhile isSpaceChar).takeWhile isNumChar
      if num.isEmpty then none else some num
    | _ => none
  else none

/-- `re.search(r'NAME\s*=\s*([0-9.]+)', text)`, capture group 1. -/
def searchValEq (name : List Char) (text : List Char) : Option (List Char) :=
  searchWith (matchValEqAt name) text

/-- Matcher for `(xx\.x{1,2}\s+o/o+)` anchored at the position.  A run of
three or more `x` after `xx.` fails for both quantifier choices, so
checking the run length against `{1,2}` is exact. -/
def matchPercentAt (s : List Char) : Option (List Char) :=
  match s with
  | 'x' :: 'x' :: '.' :: rest =>
    let xs := rest.takeWhile (fun c => c = 'x')
    if 1 ≤ xs.length ∧ xs.length ≤ 2 then
      let r2 := rest.drop xs.length
      let sp := r2.takeWhile isSpaceChar
      if sp.isEmpty then none
      else
        match r2.drop sp.length with
        | 'o' :: '/' :: r3 =>
          let os := r3.takeWhile (fun c => c = 'o')
          if os.isEmpty then none
          else some (['x', 'x', '.'] ++ xs ++ sp ++ ['o', '/'] ++ os)
        | _ => none
    else none
  | _ => none

/-- Matcher for `INDICAC\.:\s*(MED\.\s*(?:CONTINUA|UNICA))`, capture
group 1, anchored at the position. -/
def matchIndicacAt (s : List Char) : Option (List Char) :=
  if s.take 9 = "INDICAC.:".toList then
    if ((s.drop 9).dropWhile isSpaceChar).take 4 = "MED.".toList then
      let r2 := ((s.drop 9).dropWhile isSpaceChar).drop 4
      let sp := r2.takeWhile isSpaceChar
      if (r2.drop sp.length).take 8 = "CONTINUA".toList then
        some ("MED.".toList ++ sp ++ "CONTINUA".toList)
      else if (r2.drop sp.length).take 5 = "UNICA".toList then
        some ("MED.".toList ++ sp ++ "UNICA".toList)
      else none
    else none
  else none

/-- `self.parsed_values`: one field per logical reading, `"---"` is the
not-yet-observed sentinel. -/
structure ParsedValues where
  X : String
  K : String
  M : String
  T : String
  U1 : String
  I1 : String
  di : String
  ds : String
  calib_percent : String
  calib_indicac : String
  calib_i_percent : String
  calib_l123 : String
  calib_cos : String
  calib_go : String
  calib_r : String
deriving DecidableEq, Repr

/-- The initial `parsed_values` dictionary: every field `"---"`. -/
def initParsedValues : ParsedValues :=
  { X := "---", K := "---", M := "---", T := "---", U1 := "---", I1 := "---"
    di := "---", ds := "---", calib_percent := "---", calib_indicac := "---"
    calib_i_percent := "---", calib_l123 := "---", calib_cos := "---"
    calib_go := "---", calib_r := "---" }

/-- The `X = / K = / M = / T = / U1 =` regex extraction block of
`process_screen_text` (each match overwrites, a miss leaves the old
value). -/
def parse_xkmtu (pv : ParsedValues) (screen_text : String) : ParsedValues :=
  let s := screen_text.toList
  let pv := match searchValEq ['X'] s with
    | some v => { pv with X := String.mk v }
    | none => pv
  let pv := match searchValEq ['K'] s with
    | some v => { pv with K := String.mk v }
    | none => pv
  let pv := match searchValEq ['M'] s with
    | some v => { pv with M := String.mk v }
    | none => pv
  let pv := match searchValEq ['T'] s with
    | some v => { pv with T := String.mk v }
    | none => pv
  match searchValEq ['U', '1'] s with
  | some v => { pv with U1 := String.mk v }
  | none => pv

/-- The helper `get_val(line, start, end)`: a stripped fixed-column slice,
`None` when empty or when the line is too short. -/
def get_val (line : List Char) (start fin : Nat) : Option (List Char) :=
  if start < line.length then
    let val := stripChars ((line.drop start).take (fin - start))
    if val.isEmpty then none else some val
  else none

/-- The calibration-table block of `process_screen_text`: reset the table
fields to the sentinel, re-extract them positionally from screen line 5,
then the two header regexes. -/
def parse_calib (pv : ParsedValues) (screen_text : String) : ParsedValues :=
  let pv := { pv with
    calib_i_percent := "---", calib_l123 := "---", calib_cos := "---"
    di := "---", ds := "---", calib_go := "---", calib_r := "---", I1 := "---" }
  let screen_lines := splitOnChar '\n' screen_text.toList
  let pv :=
    match screen_lines.get? 5 with
    | none => pv
    | some line =>
      let pv := match get_val line 9 18 with
        | some v => { pv with calib_i_percent := String.mk v }
        | none => pv
      let pv := match get_val line 18 27 with
        | some v => { pv with calib_l123 := String.mk v }
        | none => pv
      let pv := match get_val line 27 36 with
        | some v => { pv with calib_cos := String.mk v }
        | none => pv
      let pv := match get_val line 36 45 with
        | some v => { pv with di := String.mk v }
        | none => pv
      let pv := match get_val line 45 54 with
        | some v => { pv with ds := String.mk v }
        | none => pv
      let pv := match get_val line 54 63 with
        | some v => { pv with calib_go := String.mk v }
        | none => pv
      let pv := match get_val line 63 72 with
        | some v => { pv with calib_r := String.mk v }
        | none => pv
      match get_val line 72 80 with
      | some v => { pv with I1 := String.mk v }
      | none => pv
  let pv :=
    match searchWith matchPercentAt screen_text.toList with
    | some v => { pv with calib_percent := String.mk v }
    | none => pv
  match searchWith matchIndicacAt screen_text.toList with
  | some v => { pv with calib_indicac := String.mk v }
  | none => pv

/-- One entry of `config['states']`. -/
structure StateData where
  detection_keywords : List String
deriving DecidableEq, Repr

/-- State of `StateManager`: the loaded configuration (insertion-ordered),
`current_state`, the navigation `history` stack and `parsed_values`. -/
structure StateManager where
  config_states : List (String × StateData)
  current_state : String
  history : List String
  parsed_values : ParsedValues
deriving DecidableEq, Repr

/-- `StateManager.__init__` with an already-loaded configuration; a failed
`_load_config` (missing file / invalid JSON) yields the empty table
`[]`. -/
def initStateManager (cfg : List (String × StateData)) : StateManager :=
  { config_states := cfg, current_state := "INIT", history := []
    parsed_values := initParsedValues }

/-- Dictionary lookup `self.config['states'][name]`. -/
def lookup_state (cfg : List (String × StateData)) (name : String) :
    Option StateData :=
  (cfg.find? (fun p => p.1 == name)).map (fun p => p.2)

/-- `all(keyword in screen_text for keyword in detection_keywords)`. -/
def state_matches (sd : StateData) (screen_text : String) : Bool :=
  sd.detection_keywords.all (fun kw => containsSub kw screen_text)

/-- `set_state(new_state, from_history)`: no-op when already there;
otherwise push the old state (unless navigating from history), switch,
and — when leaving `CALIBRAR_TABLE_VIEW` — reset `di`/`ds` to the
sentinel. -/
def set_state (sm : StateManager) (new_state : String) (from_history : Bool) :
    StateManager :=
  if sm.current_state == new_state then sm
  else if sm.current_state == "CALIBRAR_TABLE_VIEW" &&
      !(new_state == "CALIBRAR_TABLE_VIEW") then
    { sm with
      history := if from_history then sm.history else sm.history ++ [sm.current_state]
      current_state := new_state
      parsed_values := { sm.parsed_values with di := "---", ds := "---" } }
  else
    { sm with
      history := if from_history then sm.history else sm.history ++ [sm.current_state]
      current_state := new_state }

/-- The states in which the `X/K/M/T/U1` block runs. -/
def xkmtuStates : List String :=
  ["DATOS_MEDIDOR_MENU", "CALIBRAR_MENU", "CALIBRAR_TABLE_VIEW"]

/-- The states in which the calibration-table block runs. -/
def calibParseStates : List String := ["CALIBRAR_MENU", "CALIBRAR_TABLE_VIEW"]

/-- The data-entry / live-table states in which auto-detection is
suppressed. -/
def suppressStates : List String := ["CALIBRAR_DATA_ENTRY", "CALIBRAR_TABLE_VIEW"]

/-- First half of the field-extraction phase of `process_screen_text`. -/
def parse_phase1 (sm : StateManager) (screen_text : String) : StateManager :=
  if xkmtuStates.contains sm.current_state then
    { sm with parsed_values := parse_xkmtu sm.parsed_values screen_text }
  else sm

/-- Second half of the field-extraction phase of `process_screen_text`. -/
def parse_phase2 (sm : StateManager) (screen_text : String) : StateManager :=
  if calibParseStates.contains sm.current_state then
    { sm with parsed_values := parse_calib sm.parsed_values screen_text }
  else sm

/-- The whole field-extraction phase of `process_screen_text`. -/
def parse_phase (sm : StateManager) (screen_text : String) : StateManager :=
  parse_phase2 (parse_phase1 sm screen_text) screen_text

/-- `process_screen_text`: field extraction, then either suppression (with
the hard-coded `CALIBRAR_DATA_ENTRY → CALIBRAR_MENU` escape, whose config
lookup can raise `KeyError` = `none`) or the first-match keyword
detection loop. -/
def process_screen_text (sm0 : StateManager) (screen_text : String) :
    Option StateManager :=
  let sm := parse_phase sm0 screen_text
  if suppressStates.contains sm.current_state then
    if sm.current_state == "CALIBRAR_DATA_ENTRY" then
      match lookup_state sm.config_states "CALIBRAR_MENU" with
      | none => none
      | some sd =>
        if state_matches sd screen_text then some (set_state sm "CALIBRAR_MENU" false)
        else some sm
    else some sm
  else
    match sm.config_states.find? (fun p =>
        !p.2.detection_keywords.isEmpty && state_matches p.2 screen_text) with
    | some p => some (if p.1 == sm.current_state then sm else set_state sm p.1 false)
    | none => some sm

/-- A sequence of `process_screen_text` calls, propagating a raised
exception. -/
def process_screen_texts (sm : StateManager) : List String → Option StateManager
  | [] => some sm
  | t :: rest => (process_screen_text sm t).bind fun sm2 => process_screen_texts sm2 rest

/-! ### Claims C4, C5 and C9 on the state machine -/

theorem parse_phase1_fields (sm : StateManager) (t : String) :
    (parse_phase1 sm t).current_state = sm.current_state ∧
      (parse_phase1 sm t).config_states = sm.config_states := by
  rw [parse_phase1]
  split
  · exact ⟨rfl, rfl⟩
  · exact ⟨rfl, rfl⟩

theorem parse_phase2_fields (sm : StateManager) (t : String) :
    (parse_phase2 sm t).current_state = sm.current_state ∧
      (parse_phase2 sm t).config_states = sm.config_states := by
  rw [parse_phase2]
  split
  · exact ⟨rfl, rfl⟩
  · exact ⟨rfl, rfl⟩

theorem parse_phase_fields (sm : StateManager) (t : String) :
    (parse_phase sm t).current_state = sm.current_state ∧
      (parse_phase sm t).config_states = sm.config_states := by
  rw [parse_phase]
  exact ⟨(parse_phase2_fields _ t).1.trans (parse_phase1_fields sm t).1,
    (parse_phase2_fields _ t).2.trans (parse_phase1_fields sm t).2⟩

theorem set_state_current {sm : StateManager} {ns : String} (fh : Bool)
    (h : sm.current_state ≠ ns) : (set_state sm ns fh).current_state = ns := by
  rw [set_state, if_neg (by simp only [beq_iff_eq]; exact h)]
  split
  · rfl
  · rfl

/-- C9 (confirmed): with the configuration load failed and replaced by the
empty state table, any sequence of `process_screen_text` calls succeeds
(no exception) and never moves `current_state` away from `INIT`; in fact
the manager is left entirely unchanged. -/
theorem c9_degraded_mode (texts : List String) :
    ∃ sm, process_screen_texts (initStateManager []) texts = some sm ∧
      sm.current_state = "INIT" := by
  have hstep : ∀ t : String,
      process_screen_text (initStateManager []) t = some (initStateManager []) :=
    fun t => rfl
  induction texts with
  | nil => exact ⟨initStateManager [], rfl, rfl⟩
  | cons t rest ih =>
    obtain ⟨sm, hsm, hst⟩ := ih
    refine ⟨sm, ?_, hst⟩
    rw [process_screen_texts, hstep t, Option.some_bind]
    exact hsm

/-- The C4 counterexample configuration: a single state `FOO` detected by
the keyword `"foo"`. -/
def c4cfg : List (String × StateData) := [("FOO", { detection_keywords := ["foo"] })]

/-- The C4 counterexample manager: sitting in the live-table state. -/
def c4sm : StateManager :=
  { config_states := c4cfg, current_state := "CALIBRAR_TABLE_VIEW", history := []
    parsed_values := initParsedValues }

/-- C4 counterexample: the screen text `"foo"` satisfies the keyword set
of exactly one configured state (`FOO`), yet `process_screen_text` from
`CALIBRAR_TABLE_VIEW` leaves `current_state` unchanged — detection is
suppressed in the data-entry / live-table states, refuting "regardless of
the state the machine was in beforehand". -/
theorem c4_counterexample :
    state_matches { detection_keywords := ["foo"] } "foo" = true ∧
      (∀ p ∈ c4cfg, p.2.detection_keywords ≠ [] →
        state_matches p.2 "foo" = true → p.1 = "FOO") ∧
      (process_screen_text c4sm "foo").map (fun sm => sm.current_state) =
        some "CALIBRAR_TABLE_VIEW" ∧
      ("CALIBRAR_TABLE_VIEW" : String) ≠ "FOO" := by
  decide

/-- C4 amended: the determinism holds for every starting state outside the
two suppression states (`CALIBRAR_DATA_ENTRY`, `CALIBRAR_TABLE_VIEW`):
if the screen text satisfies the full non-empty keyword set of state `S`
and of no other configured state, `process_screen_text` ends with
`current_state = S`, regardless of the parsed fields and history. -/
theorem c4_amended_detection (sm : StateManager) (text S : String) (sd : StateData)
    (hsup : suppressStates.contains sm.current_state = false)
    (hmem : (S, sd) ∈ sm.config_states)
    (hne : sd.detection_keywords ≠ [])
    (hmatch : state_matches sd text = true)
    (huniq : ∀ p ∈ sm.config_states, p.2.detection_keywords ≠ [] →
      state_matches p.2 text = true → p.1 = S) :
    ∃ sm2, process_screen_text sm text = some sm2 ∧ sm2.current_state = S := by
  have hcur := (parse_phase_fields sm text).1
  have hcfg := (parse_phase_fields sm text).2
  rw [process_screen_text]
  rw [hcur, hsup]
  rw [if_neg (by simp)]
  have hfind : ((parse_phase sm text).config_states.find? (fun p =>
      !p.2.detection_keywords.isEmpty && state_matches p.2 text)).isSome = true := by
    rw [List.find?_isSome]
    refine ⟨(S, sd), by rw [hcfg]; exact hmem, ?_⟩
    simp only [Bool.and_eq_true, Bool.not_eq_true']
    exact ⟨by simpa using hne, hmatch⟩
  cases hp : (parse_phase sm text).config_states.find? (fun p =>
      !p.2.detection_keywords.isEmpty && state_matches p.2 text) with
  | none => rw [hp] at hfind; exact absurd hfind (by simp)
  | some p =>
    have hq := List.find?_some hp
    simp only [Bool.and_eq_true, Bool.not_eq_true'] at hq
    have hpmem : p ∈ sm.config_states := by
      rw [← hcfg]; exact List.mem_of_find?_eq_some hp
    have hpS : p.1 = S := huniq p hpmem (by simpa using hq.1) hq.2
    refine ⟨_, rfl, ?_⟩
    show (if (p.1 == sm.current_state) = true then parse_phase sm text
        else set_state (parse_phase sm text) p.1 false).current_state = S
    by_cases heq : (p.1 == sm.current_state) = true
    · rw [if_pos heq, hcur, ← beq_iff_eq.mp heq]
      exact hpS
    · rw [if_neg heq]
      have hne2 : (parse_phase sm text).current_state ≠ p.1 := by
        rw [hcur]
        intro hcontra
        exact heq (beq_iff_eq.mpr hcontra.symm)
      rw [set_state_current false hne2]
      exact hpS
  
/-- Witness for the amended C4: a one-state configuration, starting from
`INIT`. -/
theorem c4_amended_detection_witness :
    suppressStates.contains (initStateManager
        [("MAIN_MENU", { detection_keywords := ["MENU PRINCIPAL"] })]).current_state
        = false ∧
      ∃ sm2, process_screen_text (initStateManager
          [("MAIN_MENU", { detection_keywords := ["MENU PRINCIPAL"] })])
          "** MENU PRINCIPAL **" = some sm2 ∧
        sm2.current_state = "MAIN_MENU" :=
  ⟨by decide,
    c4_amended_detection _ "** MENU PRINCIPAL **" "MAIN_MENU"
      { detection_keywords := ["MENU PRINCIPAL"] }
      (by decide) (by decide) (by decide) (by decide) (by decide)⟩

/-- The C5 counterexample manager: live-table state with a parsed table. -/
def c5sm : StateManager :=
  { config_states := [], current_state := "CALIBRAR_TABLE_VIEW", history := []
    parsed_values := { initParsedValues with
      calib_cos := "0.48", di := "1.1", ds := "2.2" } }

/-- C5 counterexample: leaving `CALIBRAR_TABLE_VIEW` via `set_state`
resets `di`/`ds` but leaves `calib_cos` (and the other table fields)
untouched — the claim that the related table fields are also reset to
`"---"` is false. -/
theorem c5_counterexample :
    (set_state c5sm "MAIN_MENU" false).parsed_values.calib_cos = "0.48" ∧
      ¬(set_state c5sm "MAIN_MENU" false).parsed_values.calib_cos = "---" ∧
      (set_state c5sm "MAIN_MENU" false).parsed_values.di = "---" ∧
      (set_state c5sm "MAIN_MENU" false).parsed_values.ds = "---" := by
  decide

/-- C5 amended: a `set_state` transition out of `CALIBRAR_TABLE_VIEW`
resets exactly `di` and `ds` to the sentinel; the other table fields
(`calib_i_percent`, `calib_l123`, `calib_cos`, `calib_go`, `calib_r`,
`I1`) keep their values (they are reset elsewhere, at the start of each
parse pass). -/
theorem c5_amended_sentinel_reset (sm : StateManager) (ns : String)
    (h1 : sm.current_state = "CALIBRAR_TABLE_VIEW")
    (h2 : ns ≠ "CALIBRAR_TABLE_VIEW") :
    (set_state sm ns false).parsed_values.di = "---" ∧
      (set_state sm ns false).parsed_values.ds = "---" ∧
      (set_state sm ns false).current_state = ns ∧
      (set_state sm ns false).parsed_values.calib_i_percent =
        sm.parsed_values.calib_i_percent ∧
      (set_state sm ns false).parsed_values.calib_l123 = sm.parsed_values.calib_l123 ∧
      (set_state sm ns false).parsed_values.calib_cos = sm.parsed_values.calib_cos ∧
      (set_state sm ns false).parsed_values.calib_go = sm.parsed_values.calib_go ∧
      (set_state sm ns false).parsed_values.calib_r = sm.parsed_values.calib_r ∧
      (set_state sm ns false).parsed_values.I1 = sm.parsed_values.I1 := by
  have hne : sm.current_state ≠ ns := by
    rw [h1]; exact fun he => h2 he.symm
  rw [set_state, if_neg (by simp only [beq_iff_eq]; exact hne),
    if_pos (by
      simp only [Bool.and_eq_true, beq_iff_eq, Bool.not_eq_true', beq_eq_false_iff_ne]
      exact ⟨h1, h2⟩)]
  exact ⟨rfl, rfl, rfl, rfl, rfl, rfl, rfl, rfl, rfl⟩

/-- Witness for the amended C5 on the concrete `c5sm`. -/
theorem c5_amended_sentinel_reset_witness :
    c5sm.current_state = "CALIBRAR_TABLE_VIEW" ∧
      ("MAIN_MENU" : String) ≠ "CALIBRAR_TABLE_VIEW" ∧
      ((set_state c5sm "MAIN_MENU" false).parsed_values.di = "---" ∧
        (set_state c5sm "MAIN_MENU" false).parsed_values.ds = "---" ∧
        (set_state c5sm "MAIN_MENU" false).current_state = "MAIN_MENU" ∧
        (set_state c5sm "MAIN_MENU" false).parsed_values.calib_i_percent =
          c5sm.parsed_values.calib_i_percent ∧
        (set_state c5sm "MAIN_MENU" false).parsed_values.calib_l123 =
          c5sm.parsed_values.calib_l123 ∧
        (set_state c5sm "MAIN_MENU" false).parsed_values.calib_cos =
          c5sm.parsed_values.calib_cos ∧
        (set_state c5sm "MAIN_MENU" false).parsed_values.calib_go =
          c5sm.parsed_values.calib_go ∧
        (set_state c5sm "MAIN_MENU" false).parsed_values.calib_r =
          c5sm.parsed_values.calib_r ∧
        (set_state c5sm "MAIN_MENU" false).parsed_values.I1 =
          c5sm.parsed_values.I1) :=
  ⟨rfl, by decide, c5_amended_sentinel_reset c5sm "MAIN_MENU" rfl (by decide)⟩

end TVK6
